import Mathlib

/-!
Verification of the BinDiff command-line batch orchestration engine
(main_portable.cc) against its specification.

Strings from the C++ source are modelled as `List Char`; `std::string::size_type`
arithmetic is modelled as `Nat` (C++ subtraction sites are guarded in the source
so no unsigned wrap occurs; this is proved where relied upon).
-/

set_option maxRecDepth 8000

namespace BinDiff

/-! ## Output path builder (GetTruncatedFilename, main_portable.cc lines 188-233) -/

/-- The kMaxFilename constant of GetTruncatedFilename (line 194): 250. -/
def kMaxFilename : Nat := 250

/-- Total length of the naive concatenation
path + part1 + middle + part2 + extension (line 196). -/
def totalLen (path part1 middle part2 ext : List Char) : Nat :=
  path.length + part1.length + middle.length + part2.length + ext.length

/-- The working copy `one` of `part1` after the first truncation stage
(lines 206-218): if part1 is the strictly longer fragment it is truncated to
max(part2.size, part1.size > overflow ? part1.size - overflow : 0),
otherwise it is left unchanged. -/
def stageOne1 (part1 part2 : List Char) (overflow : Nat) : List Char :=
  if part2.length < part1.length then
    part1.take (max part2.length
      (if overflow < part1.length then part1.length - overflow else 0))
  else part1

/-- The working copy `two` of `part2` after the first truncation stage
(lines 206-218): truncated only when part2 is the strictly longer fragment. -/
def stageOne2 (part1 part2 : List Char) (overflow : Nat) : List Char :=
  if part1.length < part2.length then
    part2.take (max part1.length
      (if overflow < part2.length then part2.length - overflow else 0))
  else part2

/-- The value of the `overflow` variable after the first truncation stage
(`overflow -= part1.size() - one.size()` resp. the symmetric line; exactly one
of the two stage-one branches truncates, the other contributes zero). -/
def remOverflow (part1 part2 : List Char) (overflow : Nat) : Nat :=
  overflow - ((part1.length - (stageOne1 part1 part2 overflow).length) +
              (part2.length - (stageOne2 part1 part2 overflow).length))

/-- The initial `overflow` variable (line 203): naive length minus the
250-character budget. -/
def initOverflow (path part1 middle part2 ext : List Char) : Nat :=
  totalLen path part1 middle part2 ext - kMaxFilename

/-- GetTruncatedFilename (lines 188-233).  The C++ function throws
std::runtime_error when no short enough name exists; this is modelled as
`none`.  All other paths return the constructed string.  (The final stage uses
`part1.substr`/`part2.substr` exactly as the source does; `one`/`two` are
prefixes of `part1`/`part2`, so taking from the originals is identical.) -/
def GetTruncatedFilename (path part1 middle part2 ext : List Char) :
    Option (List Char) :=
  if totalLen path part1 middle part2 ext ≤ kMaxFilename then
    some (path ++ part1 ++ middle ++ part2 ++ ext)
  else if remOverflow part1 part2 (initOverflow path part1 middle part2 ext) = 0 then
    some (path ++ stageOne1 part1 part2 (initOverflow path part1 middle part2 ext) ++
          middle ++ stageOne2 part1 part2 (initOverflow path part1 middle part2 ext) ++ ext)
  else if (stageOne1 part1 part2 (initOverflow path part1 middle part2 ext)).length ≤
      remOverflow part1 part2 (initOverflow path part1 middle part2 ext) / 2 then
    none
  else
    some (path ++
      part1.take ((stageOne1 part1 part2 (initOverflow path part1 middle part2 ext)).length -
        remOverflow part1 part2 (initOverflow path part1 middle part2 ext) / 2) ++ middle ++
      part2.take ((stageOne2 part1 part2 (initOverflow path part1 middle part2 ext)).length -
        remOverflow part1 part2 (initOverflow path part1 middle part2 ext) / 2) ++ ext)

/-! Auxiliary facts about the truncation stages. -/

theorem stageOne1_length (part1 part2 : List Char) (ov : Nat) :
    (stageOne1 part1 part2 ov).length =
      if part2.length < part1.length then
        max part2.length (part1.length - ov)
      else part1.length := by
  unfold stageOne1
  by_cases h : part2.length < part1.length
  · simp only [h, if_true, List.length_take]
    by_cases hov : ov < part1.length
    · simp only [hov, if_true]
      omega
    · simp only [hov, if_false]
      omega
  · simp [h]

theorem stageOne2_length (part1 part2 : List Char) (ov : Nat) :
    (stageOne2 part1 part2 ov).length =
      if part1.length < part2.length then
        max part1.length (part2.length - ov)
      else part2.length := by
  unfold stageOne2
  by_cases h : part1.length < part2.length
  · simp only [h, if_true, List.length_take]
    by_cases hov : ov < part2.length
    · simp only [hov, if_true]
      omega
    · simp only [hov, if_false]
      omega
  · simp [h]

theorem stageOne1_length_le (part1 part2 : List Char) (ov : Nat) :
    (stageOne1 part1 part2 ov).length ≤ part1.length := by
  rw [stageOne1_length]
  by_cases h : part2.length < part1.length <;> simp [h] <;> omega

theorem stageOne2_length_le (part1 part2 : List Char) (ov : Nat) :
    (stageOne2 part1 part2 ov).length ≤ part2.length := by
  rw [stageOne2_length]
  by_cases h : part1.length < part2.length <;> simp [h] <;> omega

/-- The total amount removed by the first stage never exceeds the overflow
(the unsigned subtraction `overflow -= ...` in the source cannot wrap). -/
theorem stage_reduction_le (part1 part2 : List Char) (ov : Nat) :
    (part1.length - (stageOne1 part1 part2 ov).length) +
      (part2.length - (stageOne2 part1 part2 ov).length) ≤ ov := by
  rw [stageOne1_length, stageOne2_length]
  rcases Nat.lt_trichotomy part1.length part2.length with h | h | h
  · simp only [h, if_true, Nat.not_lt_of_lt h, if_false, Nat.lt_irrefl]
    omega
  · simp [h]
  · simp only [h, if_true, Nat.not_lt_of_lt h, if_false, Nat.lt_irrefl]
    omega

/-- If overflow remains after the first stage, both working fragments have the
length of the shorter original fragment. -/
theorem stageOne_length_eq_min (part1 part2 : List Char) (ov : Nat)
    (h : remOverflow part1 part2 ov ≠ 0) :
    (stageOne1 part1 part2 ov).length = min part1.length part2.length ∧
    (stageOne2 part1 part2 ov).length = min part1.length part2.length := by
  unfold remOverflow at h
  rw [stageOne1_length, stageOne2_length] at h ⊢
  rcases Nat.lt_trichotomy part1.length part2.length with hc | hc | hc
  · simp only [hc, if_true, Nat.not_lt_of_lt hc, if_false] at h ⊢
    omega
  · simp only [hc, Nat.lt_irrefl, if_false] at h ⊢
    omega
  · simp only [hc, if_true, Nat.not_lt_of_lt hc, if_false] at h ⊢
    omega

/-- C9: whenever control reaches the equal-split stage (the naive concatenation
exceeded 250 characters and overflow remains nonzero after the first truncation
stage), the two working fragments have equal length, so the source's
`assert(one.size() == two.size())` can never fail. -/
theorem C9_equal_split_assert (path part1 middle part2 ext : List Char)
    (h1 : kMaxFilename < totalLen path part1 middle part2 ext)
    (h2 : remOverflow part1 part2 (initOverflow path part1 middle part2 ext) ≠ 0) :
    (stageOne1 part1 part2 (initOverflow path part1 middle part2 ext)).length =
      (stageOne2 part1 part2 (initOverflow path part1 middle part2 ext)).length := by
  obtain ⟨ha, hb⟩ := stageOne_length_eq_min part1 part2
    (initOverflow path part1 middle part2 ext) h2
  rw [ha, hb]

/-- Witness for C9 at a concrete input that reaches the equal-split stage. -/
theorem C9_equal_split_assert_witness :
    kMaxFilename < totalLen [] (List.replicate 127 'A') ['X'] (List.replicate 127 'B') [] ∧
    remOverflow (List.replicate 127 'A') (List.replicate 127 'B')
      (initOverflow [] (List.replicate 127 'A') ['X'] (List.replicate 127 'B') []) ≠ 0 ∧
    (stageOne1 (List.replicate 127 'A') (List.replicate 127 'B')
        (initOverflow [] (List.replicate 127 'A') ['X'] (List.replicate 127 'B') [])).length =
      (stageOne2 (List.replicate 127 'A') (List.replicate 127 'B')
        (initOverflow [] (List.replicate 127 'A') ['X'] (List.replicate 127 'B') [])).length :=
  ⟨by decide, by decide,
    C9_equal_split_assert [] (List.replicate 127 'A') ['X'] (List.replicate 127 'B') []
      (by decide) (by decide)⟩

/-- C3 counterexample: at this concrete input GetTruncatedFilename returns
normally, yet the returned path has length 251 > 250.  (The naive length is
255, the fragments have equal length, so the remaining overflow is 5, and the
equal split removes only 5/2 = 2 characters per side.) -/
theorem C3_counterexample :
    Option.map List.length
        (GetTruncatedFilename [] (List.replicate 127 'A') ['X'] (List.replicate 127 'B') []) =
      some 251 ∧ ¬(251 ≤ kMaxFilename) := by
  exact ⟨by decide, by decide⟩

/-- C3 (amended): every path returned by GetTruncatedFilename has length at
most 251 characters (251 = kMaxFilename + 1; the bound 250 is exceeded by one
exactly when the overflow remaining before the equal-split stage is odd). -/
theorem C3_result_length_le (path part1 middle part2 ext r : List Char)
    (h : GetTruncatedFilename path part1 middle part2 ext = some r) :
    r.length ≤ kMaxFilename + 1 := by
  have hred := stage_reduction_le part1 part2 (initOverflow path part1 middle part2 ext)
  have h1le := stageOne1_length_le part1 part2 (initOverflow path part1 middle part2 ext)
  have h2le := stageOne2_length_le part1 part2 (initOverflow path part1 middle part2 ext)
  have htot : totalLen path part1 middle part2 ext =
      path.length + part1.length + middle.length + part2.length + ext.length := rfl
  have hov : initOverflow path part1 middle part2 ext =
      totalLen path part1 middle part2 ext - 250 := rfl
  have hrem_eq : remOverflow part1 part2 (initOverflow path part1 middle part2 ext) =
      initOverflow path part1 middle part2 ext -
        ((part1.length -
            (stageOne1 part1 part2 (initOverflow path part1 middle part2 ext)).length) +
         (part2.length -
            (stageOne2 part1 part2 (initOverflow path part1 middle part2 ext)).length)) := rfl
  show r.length ≤ 251
  unfold GetTruncatedFilename at h
  split at h
  · -- Naive concatenation fits the budget.
    rename_i hle
    cases h
    simp only [kMaxFilename] at hle
    simp only [List.length_append]
    omega
  · rename_i hgt
    simp only [kMaxFilename] at hgt
    split at h
    · -- Overflow fully consumed by the first stage: result has length exactly 250.
      rename_i hrem
      cases h
      simp only [List.length_append]
      omega
    · split at h
      · simp at h
      · -- Equal-split stage: at most one character of overflow survives rounding.
        rename_i hrem hsplit
        cases h
        obtain ⟨hx, hy⟩ := stageOne_length_eq_min part1 part2
          (initOverflow path part1 middle part2 ext) hrem
        simp only [List.length_append, List.length_take]
        omega

/-- Artifact witness for the amended C3 bound at a concrete input. -/
theorem C3_result_length_le_witness :
    GetTruncatedFilename [] (List.replicate 127 'A') ['X'] (List.replicate 127 'B') [] =
      some (List.replicate 125 'A' ++ 'X' :: List.replicate 125 'B') ∧
    (List.replicate 125 'A' ++ 'X' :: List.replicate 125 'B').length ≤ kMaxFilename + 1 :=
  ⟨by decide,
    C3_result_length_le [] (List.replicate 127 'A') ['X'] (List.replicate 127 'B') []
      (List.replicate 125 'A' ++ 'X' :: List.replicate 125 'B') (by decide)⟩

/-- C5 counterexample: a concrete input on which the claim's fail-condition
holds (the longer fragment is truncated down to the shorter's length — here 0 —
and the equal split of the remaining overflow, 0/2 = 0 characters, removes at
least one fragment's entire remaining length, 0), yet GetTruncatedFilename
returns a path rather than failing: the first stage already consumed the whole
overflow. -/
theorem C5_counterexample :
    (GetTruncatedFilename (List.replicate 250 'p') (List.replicate 50 'A') [] [] []).isSome =
        true ∧
    kMaxFilename < totalLen (List.replicate 250 'p') (List.replicate 50 'A') [] [] [] ∧
    min (List.replicate 50 'A').length ([] : List Char).length ≤
      remOverflow (List.replicate 50 'A') []
        (initOverflow (List.replicate 250 'p') (List.replicate 50 'A') [] [] []) / 2 := by
  exact ⟨by decide, by decide, by decide⟩

/-- C5 (amended): GetTruncatedFilename fails with the naming error exactly when
the naive concatenation exceeds 250 characters, the overflow remaining after
the longer fragment has been truncated down to the shorter's length is nonzero,
and that remaining overflow's equal split (overflow/2 characters per fragment)
would remove at least one fragment's entire remaining length; in every other
case it returns a path. -/
theorem C5_fail_iff (path part1 middle part2 ext : List Char) :
    GetTruncatedFilename path part1 middle part2 ext = none ↔
      (kMaxFilename < totalLen path part1 middle part2 ext ∧
       remOverflow part1 part2 (initOverflow path part1 middle part2 ext) ≠ 0 ∧
       min part1.length part2.length ≤
         remOverflow part1 part2 (initOverflow path part1 middle part2 ext) / 2) := by
  have hm := stageOne_length_eq_min part1 part2 (initOverflow path part1 middle part2 ext)
  unfold GetTruncatedFilename
  split
  · rename_i hle
    exact iff_of_false (by simp) (fun hc => absurd hc.1 (by omega))
  · rename_i hgt
    rw [not_le] at hgt
    split
    · rename_i hrem
      exact iff_of_false (by simp) (fun hc => hc.2.1 hrem)
    · rename_i hrem
      rw [(hm hrem).1]
      split
      · rename_i hfail
        exact iff_of_true rfl ⟨hgt, hrem, hfail⟩
      · rename_i hok
        exact iff_of_false (by simp) (fun hc => hok hc.2.2)

/-- C4: on inputs whose naive concatenation exceeds 250 characters and whose
two variable fragments have different lengths, the first truncation stage
shortens only the longer fragment, never below the shorter fragment's length;
and if this consumes the whole overflow, the returned path contains the shorter
fragment entirely unchanged. -/
theorem C4_longer_truncated_first (path part1 middle part2 ext : List Char)
    (hlen : kMaxFilename < totalLen path part1 middle part2 ext)
    (hne : part1.length ≠ part2.length) :
    (part2.length < part1.length →
      stageOne2 part1 part2 (initOverflow path part1 middle part2 ext) = part2 ∧
      part2.length ≤
        (stageOne1 part1 part2 (initOverflow path part1 middle part2 ext)).length ∧
      (remOverflow part1 part2 (initOverflow path part1 middle part2 ext) = 0 →
        GetTruncatedFilename path part1 middle part2 ext =
          some (path ++ stageOne1 part1 part2 (initOverflow path part1 middle part2 ext) ++
                middle ++ part2 ++ ext))) ∧
    (part1.length < part2.length →
      stageOne1 part1 part2 (initOverflow path part1 middle part2 ext) = part1 ∧
      part1.length ≤
        (stageOne2 part1 part2 (initOverflow path part1 middle part2 ext)).length ∧
      (remOverflow part1 part2 (initOverflow path part1 middle part2 ext) = 0 →
        GetTruncatedFilename path part1 middle part2 ext =
          some (path ++ part1 ++ middle ++
                stageOne2 part1 part2 (initOverflow path part1 middle part2 ext) ++ ext))) := by
  constructor
  · intro hgt
    have h2 : stageOne2 part1 part2 (initOverflow path part1 middle part2 ext) = part2 := by
      unfold stageOne2
      rw [if_neg (by omega)]
    refine ⟨h2, ?_, ?_⟩
    · rw [stageOne1_length, if_pos hgt]
      omega
    · intro hrem
      unfold GetTruncatedFilename
      rw [if_neg (by omega), if_pos hrem, h2]
  · intro hgt
    have h1 : stageOne1 part1 part2 (initOverflow path part1 middle part2 ext) = part1 := by
      unfold stageOne1
      rw [if_neg (by omega)]
    refine ⟨h1, ?_, ?_⟩
    · rw [stageOne2_length, if_pos hgt]
      omega
    · intro hrem
      unfold GetTruncatedFilename
      rw [if_neg (by omega), if_pos hrem, h1]

/-- Witness for C4 at the spec's literal example: part1 = 300 'A's,
part2 = "short", path = "/out/", middle = "_vs_", ext = ".BinDiff".  The longer
fragment is truncated first until the total fits; part2 is unchanged. -/
theorem C4_longer_truncated_first_witness :
    kMaxFilename <
      totalLen ['/', 'o', 'u', 't', '/'] (List.replicate 300 'A') ['_', 'v', 's', '_']
        ['s', 'h', 'o', 'r', 't'] ['.', 'B', 'i', 'n', 'D', 'i', 'f', 'f'] ∧
    (List.replicate 300 'A').length ≠ (['s', 'h', 'o', 'r', 't'] : List Char).length ∧
    stageOne2 (List.replicate 300 'A') ['s', 'h', 'o', 'r', 't']
        (initOverflow ['/', 'o', 'u', 't', '/'] (List.replicate 300 'A') ['_', 'v', 's', '_']
          ['s', 'h', 'o', 'r', 't'] ['.', 'B', 'i', 'n', 'D', 'i', 'f', 'f']) =
      ['s', 'h', 'o', 'r', 't'] ∧
    (['s', 'h', 'o', 'r', 't'] : List Char).length ≤
      (stageOne1 (List.replicate 300 'A') ['s', 'h', 'o', 'r', 't']
        (initOverflow ['/', 'o', 'u', 't', '/'] (List.replicate 300 'A') ['_', 'v', 's', '_']
          ['s', 'h', 'o', 'r', 't'] ['.', 'B', 'i', 'n', 'D', 'i', 'f', 'f'])).length ∧
    GetTruncatedFilename ['/', 'o', 'u', 't', '/'] (List.replicate 300 'A') ['_', 'v', 's', '_']
        ['s', 'h', 'o', 'r', 't'] ['.', 'B', 'i', 'n', 'D', 'i', 'f', 'f'] =
      some (['/', 'o', 'u', 't', '/'] ++
            stageOne1 (List.replicate 300 'A') ['s', 'h', 'o', 'r', 't']
              (initOverflow ['/', 'o', 'u', 't', '/'] (List.replicate 300 'A')
                ['_', 'v', 's', '_'] ['s', 'h', 'o', 'r', 't']
                ['.', 'B', 'i', 'n', 'D', 'i', 'f', 'f']) ++
            ['_', 'v', 's', '_'] ++ ['s', 'h', 'o', 'r', 't'] ++
            ['.', 'B', 'i', 'n', 'D', 'i', 'f', 'f']) := by
  have h := (C4_longer_truncated_first ['/', 'o', 'u', 't', '/'] (List.replicate 300 'A')
      ['_', 'v', 's', '_'] ['s', 'h', 'o', 'r', 't'] ['.', 'B', 'i', 'n', 'D', 'i', 'f', 'f']
      (by decide) (by decide)).1 (by decide)
  exact ⟨by decide, by decide, h.1, h.2.1, h.2.2 (by decide)⟩

/-! ## Diff worker loop (DifferThread::operator(), lines 252-367)

File identifiers are modelled as `List Char`.  A worker's observable actions
are modelled as an event trace; its mutable state relevant to the claims is the
pair of tracked previous-iteration identifiers `last_file1`/`last_file2`. -/

/-- Observable actions of the loop body. -/
inductive Event where
  | clearCache : Event
  | readFile1 : List Char → Event
  | resetMatches1 : Event
  | readFile2 : List Char → Event
  | resetMatches2 : Event
  | diffPair : List Char → List Char → Event
  | writeResult : List Char → List Char → Event
  | errorMsg : List Char → List Char → Event
deriving DecidableEq, Repr

/-- The ordered actions of the try-block body of one iteration (lines 281-350),
after the job (file1, file2) has been popped, given the previous iteration's
tracked identifiers: clear the instruction cache iff both sides changed (lines
282-284), then read or reset side 1 (lines 289-297), then read or reset side 2
(lines 299-307), then diff (lines 309-314) and write the results (lines
325-350). -/
def tryEvents (last1 last2 file1 file2 : List Char) : List Event :=
  (if last1 ≠ file1 ∧ last2 ≠ file2 then [Event.clearCache] else []) ++
  (if last1 ≠ file1 then [Event.readFile1 file1] else [Event.resetMatches1]) ++
  (if last2 ≠ file2 then [Event.readFile2 file2] else [Event.resetMatches2]) ++
  [Event.diffPair file1 file2, Event.writeResult file1 file2]

/-- Actions of one full iteration.  `outcome = none` models a try block that
runs to completion; `outcome = some k` models an exception (std::bad_alloc or
any std::exception) thrown after `k` actions of the body, caught by the
handlers at lines 354-365, which print exactly one error message naming both
job identifiers. -/
def iterationEvents (last1 last2 file1 file2 : List Char) (outcome : Option Nat) :
    List Event :=
  match outcome with
  | none => tryEvents last1 last2 file1 file2
  | some k => (tryEvents last1 last2 file1 file2).take k ++ [Event.errorMsg file1 file2]

/-- The tracked identifiers after one iteration: the success path records the
job's identifiers (lines 352-353); both catch handlers clear them (lines
357-358 and 363-364). -/
def iterationState (file1 file2 : List Char) (outcome : Option Nat) :
    List Char × List Char :=
  match outcome with
  | none => (file1, file2)
  | some _ => ([], [])

/-- Result of running one worker to termination. -/
structure WorkerRun where
  events : List Event
  processed : List (List Char × List Char)
  remaining : List (List Char × List Char)
deriving DecidableEq, Repr

/-- One worker's do-while loop (lines 265-366).  `queue` is this worker's view
of the shared queue (pops are serialized; interleaving with other workers is
modelled separately), `outcomes` is the per-iteration exception oracle, and
`quits` gives the value of `g_wants_to_quit` observed at each `while
(!g_wants_to_quit)` check.  The loop breaks before processing anything when the
queue is empty, and otherwise checks the quit flag only after a popped job has
been handled. -/
def runWorker (queue : List (List Char × List Char)) (last1 last2 : List Char)
    (outcomes : List (Option Nat)) (quits : List Bool) : WorkerRun :=
  match queue with
  | [] => ⟨[], [], []⟩
  | (file1, file2) :: rest =>
    let o := outcomes.headD none
    let evts := iterationEvents last1 last2 file1 file2 o
    let st := iterationState file1 file2 o
    if quits.headD false then
      ⟨evts, [(file1, file2)], rest⟩
    else
      let r := runWorker rest st.1 st.2 outcomes.tail quits.tail
      ⟨evts ++ r.events, (file1, file2) :: r.processed, r.remaining⟩

/-- C1: for consecutive jobs (f1, f2) then (g1, g2) on one worker, where the
first completed successfully (so the tracked identifiers are f1, f2): if the
primary is unchanged the worker does not reload it and only resets match state;
if both primary and secondary changed, the instruction cache is cleared first,
before either side is loaded; in every other case the cache is not cleared. -/
theorem C1_cache_invalidation (f1 f2 g1 g2 : List Char) :
    (g1 = f1 →
      (∀ h, Event.readFile1 h ∉ tryEvents f1 f2 g1 g2) ∧
      Event.resetMatches1 ∈ tryEvents f1 f2 g1 g2) ∧
    (f1 ≠ g1 → f2 ≠ g2 →
      ∃ rest, tryEvents f1 f2 g1 g2 = Event.clearCache :: rest) ∧
    (¬(f1 ≠ g1 ∧ f2 ≠ g2) → Event.clearCache ∉ tryEvents f1 f2 g1 g2) := by
  refine ⟨?_, ?_, ?_⟩
  · rintro rfl
    constructor
    · intro h
      by_cases h2 : f2 ≠ g2 <;> simp [tryEvents, h2]
    · by_cases h2 : f2 ≠ g2 <;> simp [tryEvents, h2]
  · intro h1 h2
    exact ⟨[Event.readFile1 g1, Event.readFile2 g2, Event.diffPair g1 g2,
            Event.writeResult g1 g2], by simp [tryEvents, h1, h2]⟩
  · intro hn
    rw [tryEvents, if_neg hn]
    by_cases ha : f1 ≠ g1 <;> by_cases hb : f2 ≠ g2 <;> simp [ha, hb] at hn ⊢

/-- Witness for C1 at concrete identifiers (same primary, changed secondary). -/
theorem C1_cache_invalidation_witness :
    ((∀ h, Event.readFile1 h ∉ tryEvents ['a'] ['b'] ['a'] ['c']) ∧
      Event.resetMatches1 ∈ tryEvents ['a'] ['b'] ['a'] ['c']) ∧
    Event.clearCache ∉ tryEvents ['a'] ['b'] ['a'] ['c'] := by
  have h := C1_cache_invalidation ['a'] ['b'] ['a'] ['c']
  exact ⟨h.1 rfl, h.2.2 (by simp)⟩

/-- C2: when an exception interrupts a job (f1, f2) after any number of
actions, the worker emits an error naming both identifiers as the last action
of that iteration, clears both tracked identifiers, and (fourth conjunct)
continues with the remaining queued jobs rather than retrying or terminating;
on success it records the job's identifiers as the tracked pair instead. -/
theorem C2_fault_isolation (last1 last2 f1 f2 : List Char) (k : Nat)
    (rest : List (List Char × List Char)) (outs : List (Option Nat))
    (quits : List Bool) :
    (iterationEvents last1 last2 f1 f2 (some k)).getLast? =
        some (Event.errorMsg f1 f2) ∧
    iterationState f1 f2 (some k) = ([], []) ∧
    iterationState f1 f2 none = (f1, f2) ∧
    runWorker ((f1, f2) :: rest) last1 last2 (some k :: outs) (false :: quits) =
      ⟨iterationEvents last1 last2 f1 f2 (some k) ++
         (runWorker rest [] [] outs quits).events,
       (f1, f2) :: (runWorker rest [] [] outs quits).processed,
       (runWorker rest [] [] outs quits).remaining⟩ := by
  refine ⟨?_, rfl, rfl, rfl⟩
  simp [iterationEvents]

/-- C10: the quit flag is only checked at the end of each loop iteration: a
worker whose loop begins after graceful stop was already requested (quit
observed `true` at every check) still pops and fully processes exactly one job
from a non-empty queue before exiting, leaving the rest of the backlog. -/
theorem C10_quit_checked_after_job (f1 f2 last1 last2 : List Char)
    (rest : List (List Char × List Char)) (outs : List (Option Nat))
    (quits : List Bool) :
    runWorker ((f1, f2) :: rest) last1 last2 outs (true :: quits) =
      ⟨iterationEvents last1 last2 f1 f2 (outs.headD none), [(f1, f2)], rest⟩ := rfl

/-! ## Signal handling (SignalHandler, lines 524-540) -/

/-- The handler's static signal counter plus the global quit flag. -/
structure SigState where
  signal_count : Nat
  wants_to_quit : Bool
deriving DecidableEq, Repr

/-- Initial state: `static int signal_count = 0`, `g_wants_to_quit = false`. -/
def initSigState : SigState := ⟨0, false⟩

/-- SignalHandler for SIGINT (lines 524-540): `++signal_count`; below three it
prints a shutdown notice and sets `g_wants_to_quit`; from the third signal on
it calls `exit(1)`.  The returned option is `some code` when the handler
terminates the process. -/
def SignalHandler (s : SigState) : SigState × Option Nat :=
  if s.signal_count + 1 < 3 then
    (⟨s.signal_count + 1, true⟩, none)
  else
    (⟨s.signal_count + 1, s.wants_to_quit⟩, some 1)

/-- C6: the first and second interrupt signals set the graceful-stop flag
without terminating the process; a worker holding a job when the flag is
observed completes that job in full, performs no further pop, and abandons the
remaining backlog; the third signal terminates the process with a nonzero exit
code, bypassing any in-flight job. -/
theorem C6_staged_cancellation (f1 f2 last1 last2 : List Char)
    (rest : List (List Char × List Char)) (outs : List (Option Nat))
    (quits : List Bool) :
    (SignalHandler initSigState).2 = none ∧
    (SignalHandler initSigState).1.wants_to_quit = true ∧
    (SignalHandler (SignalHandler initSigState).1).2 = none ∧
    (SignalHandler (SignalHandler initSigState).1).1.wants_to_quit = true ∧
    ((SignalHandler (SignalHandler (SignalHandler initSigState).1).1).2 = some 1 ∧
      (1 : Nat) ≠ 0) ∧
    ((runWorker ((f1, f2) :: rest) last1 last2 outs (true :: quits)).events =
        iterationEvents last1 last2 f1 f2 (outs.headD none) ∧
      (runWorker ((f1, f2) :: rest) last1 last2 outs (true :: quits)).processed =
        [(f1, f2)] ∧
      (runWorker ((f1, f2) :: rest) last1 last2 outs (true :: quits)).remaining = rest) :=
  ⟨rfl, rfl, rfl, rfl, ⟨rfl, by decide⟩, rfl, rfl, rfl⟩

/-! ## Batch pair enumeration (BatchDiff, lines 433-445 and 467-481) -/

/-- Modelled from the spec: the external JoinPath helper (binexport
util/filesystem) used by BatchDiff at line 441 to form an exported program's
full path; modelled as concatenation with a path separator.  Only that it
yields a non-empty path and is injective in the file name matters here. -/
def JoinPath (path name : List Char) : List Char := path ++ '/' :: name

/-- The todo list of file pairs built by BatchDiff (lines 433-445): for every
ordered pair of iterator positions (it, jt) over the binexports vector with
it ≠ jt (iterator identity, i.e. position), the pair (*it, *jt) is appended
when no reference file is set or the reference equals
JoinPath(full_path, *it). -/
def diffPairs (binexports : List (List Char)) (fullPath referenceFile : List Char) :
    List (List Char × List Char) :=
  (List.range binexports.length).flatMap fun i =>
    (List.range binexports.length).filterMap fun j =>
      if i = j then none
      else if referenceFile = [] ∨ referenceFile = JoinPath fullPath (binexports.getD i [])
      then some (binexports.getD i [], binexports.getD j [])
      else none

/-- The `num_diffed` count reported by BatchDiff (lines 471, 479-480): the size
of the seeded pair list. -/
def numDiffed (binexports : List (List Char)) (fullPath referenceFile : List Char) : Nat :=
  (diffPairs binexports fullPath referenceFile).length

theorem filterMap_ite_eq_filter_map {α : Type} (l : List Nat) (p : Nat → Prop)
    [DecidablePred p] (g : Nat → α) :
    (l.filterMap fun j => if p j then none else some (g j)) =
      (l.filter fun j => ¬ p j).map g := by
  induction l with
  | nil => rfl
  | cons a l ih =>
    by_cases h : p a <;> simp [List.filterMap_cons, h, ih]

theorem length_filter_range_ne (n i : Nat) (h : i < n) :
    ((List.range n).filter fun j => ¬ i = j).length = n - 1 := by
  induction n with
  | zero => omega
  | succ n ih =>
    rw [List.range_succ, List.filter_append, List.length_append]
    by_cases hi : i = n
    · subst hi
      rw [List.filter_eq_self.mpr]
      · simp
      · intro a ha
        rw [List.mem_range] at ha
        simp only [decide_eq_true_eq]
        omega
    · rw [ih (by omega)]
      simp only [List.filter_cons, List.filter_nil, decide_eq_true_eq]
      rw [if_pos hi]
      simp only [List.length_cons, List.length_nil]
      omega

theorem diffPairs_no_ref (bx : List (List Char)) (fp : List Char) :
    diffPairs bx fp [] =
      (List.range bx.length).flatMap fun i =>
        ((List.range bx.length).filter fun j => ¬ i = j).map
          fun j => (bx.getD i [], bx.getD j []) := by
  unfold diffPairs
  congr 1
  funext i
  rw [List.filterMap_congr (g := fun j =>
      if i = j then none else some (bx.getD i [], bx.getD j []))]
  · exact filterMap_ite_eq_filter_map _ (fun j => i = j) _
  · intro j hj
    by_cases h : i = j <;> simp [h]

theorem JoinPath_ne_nil (p a : List Char) : JoinPath p a ≠ [] := by
  unfold JoinPath
  simp

theorem JoinPath_inj (p a b : List Char) (h : JoinPath p a = JoinPath p b) : a = b := by
  unfold JoinPath at h
  simpa using List.append_cancel_left h

theorem flatMap_single_range {β : Type} (f : Nat → List β) (n k : Nat) (hk : k < n)
    (h : ∀ i, i < n → i ≠ k → f i = []) :
    (List.range n).flatMap f = f k := by
  induction n with
  | zero => omega
  | succ n ih =>
    rw [List.range_succ, List.flatMap_append]
    by_cases hkn : k = n
    · subst hkn
      rw [List.flatMap_eq_nil_iff.mpr fun x hx => by
        rw [List.mem_range] at hx
        exact h x (by omega) (by omega)]
      simp
    · rw [ih (by omega) fun i hi hne => h i (by omega) hne]
      have hn : f n = [] := h n (by omega) (fun he => hkn he.symm)
      simp [hn]

theorem diffPairs_no_ref_length (bx : List (List Char)) (fp : List Char) :
    (diffPairs bx fp []).length = bx.length * (bx.length - 1) := by
  rw [diffPairs_no_ref, List.length_flatMap]
  rw [List.map_congr_left (g := Function.const ℕ (bx.length - 1)) ?_]
  · rw [List.map_const, List.sum_replicate, List.length_range, smul_eq_mul]
  · intro i hi
    rw [List.mem_range] at hi
    simp only [Function.comp_apply, List.length_map, Function.const_apply]
    exact length_filter_range_ne _ _ hi

theorem diffPairs_no_ref_mem (bx : List (List Char)) (fp : List Char) (hnd : bx.Nodup)
    (p q : List Char) :
    (p, q) ∈ diffPairs bx fp [] ↔ p ∈ bx ∧ q ∈ bx ∧ p ≠ q := by
  rw [diffPairs_no_ref]
  simp only [List.mem_flatMap, List.mem_map, List.mem_filter, List.mem_range,
    decide_eq_true_eq]
  constructor
  · rintro ⟨i, hi, j, ⟨⟨hj, hne⟩, heq⟩⟩
    obtain ⟨rfl, rfl⟩ : bx.getD i [] = p ∧ bx.getD j [] = q :=
      ⟨congrArg Prod.fst heq, congrArg Prod.snd heq⟩
    rw [List.getD_eq_getElem _ _ hi, List.getD_eq_getElem _ _ hj]
    exact ⟨List.getElem_mem hi, List.getElem_mem hj,
      fun hpq => hne (hnd.getElem_inj_iff.mp hpq)⟩
  · rintro ⟨hp, hq, hpq⟩
    obtain ⟨i, hi, rfl⟩ := List.mem_iff_getElem.mp hp
    obtain ⟨j, hj, rfl⟩ := List.mem_iff_getElem.mp hq
    refine ⟨i, hi, j, ⟨⟨hj, fun he => hpq (by subst he; rfl)⟩, ?_⟩⟩
    rw [List.getD_eq_getElem _ _ hi, List.getD_eq_getElem _ _ hj]

theorem diffPairs_no_ref_nodup (bx : List (List Char)) (fp : List Char)
    (hnd : bx.Nodup) : (diffPairs bx fp []).Nodup := by
  rw [diffPairs_no_ref, List.nodup_flatMap]
  constructor
  · intro i hi
    rw [List.mem_range] at hi
    refine List.Nodup.map_on ?_ ((List.nodup_range _).filter _)
    intro x hx y hy hexy
    rw [List.mem_filter, List.mem_range] at hx hy
    have hsnd : bx.getD x [] = bx.getD y [] := congrArg Prod.snd hexy
    rw [List.getD_eq_getElem _ _ hx.1, List.getD_eq_getElem _ _ hy.1] at hsnd
    exact hnd.getElem_inj_iff.mp hsnd
  · rw [List.pairwise_iff_getElem]
    intro a b ha hb hab
    rw [List.getElem_range, List.getElem_range]
    rw [List.length_range] at ha hb
    simp only [Function.onFun]
    rw [List.disjoint_left]
    rintro ⟨p, q⟩ hpa hpb
    rw [List.mem_map] at hpa hpb
    obtain ⟨x, hx, hxe⟩ := hpa
    obtain ⟨y, hy, hye⟩ := hpb
    have h1 : bx.getD a [] = p := congrArg Prod.fst hxe
    have h2 : bx.getD b [] = p := congrArg Prod.fst hye
    rw [List.getD_eq_getElem _ _ ha] at h1
    rw [List.getD_eq_getElem _ _ hb] at h2
    exact absurd (hnd.getElem_inj_iff.mp (h1.trans h2.symm)) (by omega)

theorem diffPairs_ref (bx : List (List Char)) (fp : List Char) (k : Nat)
    (hnd : bx.Nodup) (hk : k < bx.length) :
    diffPairs bx fp (JoinPath fp (bx.getD k [])) =
      ((List.range bx.length).filter fun j => ¬ k = j).map
        fun j => (bx.getD k [], bx.getD j []) := by
  unfold diffPairs
  have hside : ∀ i, i < bx.length → i ≠ k →
      ((List.range bx.length).filterMap fun j =>
        if i = j then none
        else if JoinPath fp (bx.getD k []) = [] ∨
            JoinPath fp (bx.getD k []) = JoinPath fp (bx.getD i []) then
          some (bx.getD i [], bx.getD j []) else none) = [] := by
    intro i hi hik
    rw [List.filterMap_eq_nil_iff]
    intro j hj
    have hcond : ¬ (JoinPath fp (bx.getD k []) = [] ∨
        JoinPath fp (bx.getD k []) = JoinPath fp (bx.getD i [])) := by
      rintro (h0 | h0)
      · exact JoinPath_ne_nil fp (bx.getD k []) h0
      · have hki := JoinPath_inj _ _ _ h0
        rw [List.getD_eq_getElem _ _ hk, List.getD_eq_getElem _ _ hi] at hki
        exact hik (hnd.getElem_inj_iff.mp hki).symm
    by_cases hij : i = j
    · rw [if_pos hij]
    · rw [if_neg hij, if_neg hcond]
  rw [flatMap_single_range _ bx.length k hk hside]
  rw [List.filterMap_congr (g := fun j =>
      if k = j then none else some (bx.getD k [], bx.getD j []))]
  · exact filterMap_ite_eq_filter_map _ (fun j => k = j) _
  · intro j hj
    by_cases h : k = j <;> simp [h]

/-- C7: in batch mode with N exported programs and no reference file, the
seeded job list has exactly the N*(N-1) ordered non-reflexive pairs, each
exactly once; with a reference file equal to the full path of exported program
k, it has exactly the N-1 pairs whose primary is that program; with zero
exported programs it is empty and zero pairs are reported diffed. -/
theorem C7_batch_pairs (bx : List (List Char)) (fp ref : List Char) (k : Nat) :
    (diffPairs bx fp []).length = bx.length * (bx.length - 1) ∧
    (bx.Nodup →
      (diffPairs bx fp []).Nodup ∧
      ∀ p q : List Char, (p, q) ∈ diffPairs bx fp [] ↔ p ∈ bx ∧ q ∈ bx ∧ p ≠ q) ∧
    (bx.Nodup → k < bx.length → ref = JoinPath fp (bx.getD k []) →
      diffPairs bx fp ref =
        ((List.range bx.length).filter fun j => ¬ k = j).map
          (fun j => (bx.getD k [], bx.getD j [])) ∧
      (diffPairs bx fp ref).length = bx.length - 1 ∧
      ∀ pr ∈ diffPairs bx fp ref, pr.1 = bx.getD k []) ∧
    (diffPairs [] fp ref = [] ∧ numDiffed [] fp ref = 0) := by
  refine ⟨diffPairs_no_ref_length bx fp,
    fun hnd => ⟨diffPairs_no_ref_nodup bx fp hnd,
      fun p q => diffPairs_no_ref_mem bx fp hnd p q⟩,
    fun hnd hk href => ?_, rfl, rfl⟩
  subst href
  have heq := diffPairs_ref bx fp k hnd hk
  refine ⟨heq, ?_, ?_⟩
  · rw [heq, List.length_map, length_filter_range_ne _ _ hk]
  · intro pr hpr
    rw [heq, List.mem_map] at hpr
    obtain ⟨j, hj, hje⟩ := hpr
    rw [← hje]

/-- Witness for C7 at the spec's end-to-end scenario: three exported programs
give 6 ordered non-reflexive pairs; fixing the reference to the first program's
path gives 2 pairs, all with that program as primary. -/
theorem C7_batch_pairs_witness :
    (diffPairs [['a'], ['b'], ['c']] ['d'] []).length = 3 * (3 - 1) ∧
    (diffPairs [['a'], ['b'], ['c']] ['d'] (JoinPath ['d'] ['a'])).length = 3 - 1 ∧
    (∀ pr ∈ diffPairs [['a'], ['b'], ['c']] ['d'] (JoinPath ['d'] ['a']),
      pr.1 = [['a'], ['b'], ['c']].getD 0 []) := by
  have h := C7_batch_pairs [['a'], ['b'], ['c']] ['d'] (JoinPath ['d'] ['a']) 0
  have h2 := h.2.2.1 (by decide) (by decide) rfl
  exact ⟨h.1, h2.2.1, h2.2.2⟩

/-! ## Shared job queue across workers (lines 270-279)

Pops happen one at a time under the single g_queue_mutex; the seeded queue is
never refilled after the worker threads start (BatchDiff seeds it at lines
433-445 before spawning threads at lines 472-474).  A system execution is
therefore an arbitrary interleaving of atomic front-pops by arbitrary worker
ids. -/

/-- Shared pool state: the remaining queue and the log of pops in the order
the mutex serialized them, each entry naming the popping worker. -/
structure PoolState where
  queue : List (List Char × List Char)
  log : List (Nat × (List Char × List Char))
deriving DecidableEq, Repr

/-- One atomic queue pop (lines 272-278): under g_queue_mutex some worker `w`
checks for non-emptiness and removes the front job.  No other operation
mutates the queue while workers run. -/
inductive PoolStep : PoolState → PoolState → Prop
  | pop (w : Nat) (j : List Char × List Char) (rest : List (List Char × List Char))
      (log : List (Nat × (List Char × List Char))) :
      PoolStep ⟨j :: rest, log⟩ ⟨rest, log ++ [(w, j)]⟩

/-- Reachability by any finite interleaving of pops by any set of workers. -/
def PoolReaches (s t : PoolState) : Prop := Relation.ReflTransGen PoolStep s t

theorem poolReaches_invariant (s t : PoolState) (h : PoolReaches s t) :
    t.log.map Prod.snd ++ t.queue = s.log.map Prod.snd ++ s.queue := by
  induction h with
  | refl => rfl
  | tail hab hstep ih =>
    cases hstep with
    | pop w j rest log =>
      rw [← ih]
      simp

/-- C8: from a seeded queue Q, any interleaved execution of any number of
workers pops jobs exactly in FIFO order: the popped jobs (in mutex order)
followed by the remaining (abandoned) queue reconstruct Q exactly; the popped
jobs are the FIFO prefix of Q; and when Q has no duplicate jobs, no job is
popped twice and no job is claimed by two different workers. -/
theorem C8_exactly_once (Q : List (List Char × List Char)) (s : PoolState)
    (h : PoolReaches ⟨Q, []⟩ s) :
    s.log.map Prod.snd ++ s.queue = Q ∧
    s.log.map Prod.snd = Q.take s.log.length ∧
    (Q.Nodup →
      (s.log.map Prod.snd).Nodup ∧
      ∀ w w' j, (w, j) ∈ s.log → (w', j) ∈ s.log → w = w') := by
  have hpart : s.log.map Prod.snd ++ s.queue = Q := by
    have hinv := poolReaches_invariant _ _ h
    simpa using hinv
  have hpre : s.log.map Prod.snd = Q.take s.log.length := by
    conv_rhs => rw [← hpart]
    rw [← List.length_map s.log Prod.snd, List.take_left]
  refine ⟨hpart, hpre, fun hQ => ?_⟩
  have hnodup : (s.log.map Prod.snd).Nodup := by
    rw [hpre]
    exact List.Nodup.sublist (List.take_sublist _ _) hQ
  refine ⟨hnodup, fun w w' j hw hw' => ?_⟩
  have := List.inj_on_of_nodup_map hnodup hw hw' rfl
  exact congrArg Prod.fst this

/-- Witness for C8: a two-job queue fully drained by two different workers. -/
theorem C8_exactly_once_witness :
    ((⟨[], [(0, (['a'], ['b'])), (1, (['c'], ['d']))]⟩ : PoolState).log.map Prod.snd ++
        (⟨[], [(0, (['a'], ['b'])), (1, (['c'], ['d']))]⟩ : PoolState).queue =
      [(['a'], ['b']), (['c'], ['d'])]) ∧
    (([(['a'], ['b']), (['c'], ['d'])] :
        List (List Char × List Char)).Nodup) ∧
    (((⟨[], [(0, (['a'], ['b'])), (1, (['c'], ['d']))]⟩ : PoolState).log.map
        Prod.snd).Nodup) ∧
    (∀ w w' j,
      (w, j) ∈ (⟨[], [(0, (['a'], ['b'])), (1, (['c'], ['d']))]⟩ : PoolState).log →
      (w', j) ∈ (⟨[], [(0, (['a'], ['b'])), (1, (['c'], ['d']))]⟩ : PoolState).log →
      w = w') := by
  have hreach : PoolReaches ⟨[(['a'], ['b']), (['c'], ['d'])], []⟩
      ⟨[], [(0, (['a'], ['b'])), (1, (['c'], ['d']))]⟩ :=
    Relation.ReflTransGen.tail
      (Relation.ReflTransGen.tail Relation.ReflTransGen.refl
        (PoolStep.pop 0 (['a'], ['b']) [(['c'], ['d'])] []))
      (PoolStep.pop 1 (['c'], ['d']) [] [(0, (['a'], ['b']))])
  have h := C8_exactly_once [(['a'], ['b']), (['c'], ['d'])] _ hreach
  have hnod := h.2.2 (by decide)
  exact ⟨h.1, by decide, hnod.1, hnod.2⟩

end BinDiff
